import Mathlib

/-!
Verification of the FIM (file integrity monitoring) event engine of
group004/fim: the notification filter (`watcher.is_temp_file`), the event
classifier (`FIMEventHandler._process_event` and `on_moved`), the durable
event log (`models.insert_event`, `models.get_latest_hash`), the replication
sync (`mongo_client.get_mongo_connection`, `mongo_client.send_event_to_mongo`)
and the fingerprinting serialization (`hashing.hash_state`).

Modelling conventions:
* Python strings are lists of characters (`Str`); `os.path.abspath` is the
  identity (notification paths are taken to be absolute already).
* The SQLite `events` table is a list of rows plus the next AUTOINCREMENT id;
  `datetime.now().strftime("%Y-%m-%d %H:%M:%S")` timestamps are naturals
  (the format string is lexicographically ordered by time, at second
  resolution, so distinct rows may share a timestamp).
* The filesystem as observed while one notification is processed is a record
  `FS` of `os.path.isfile` and of `compute_hash`'s outcome (`none` models the
  documented failure return when the file cannot be read).
* SHA-256 itself is opaque: `compute_hash`'s digest is whatever `FS.compute`
  yields, and `hash_state`'s digest is an abstract function on the serialized
  bytes.  All claims here concern which digests flow where, never SHA-256's
  internals.
* The MongoDB send is a boolean oracle `sendOk` at the point `insert_event`
  calls `send_event_to_mongo`; the module-level connection singleton of
  `mongo_client.py` is modelled separately as an explicit state machine.
-/

set_option maxRecDepth 100000

namespace FIM

/-- Python strings, modelled as lists of characters. -/
abbrev Str := List Char

/-- A hex digest string. -/
abbrev Hash := Str

/-- The event-type string "created". -/
def sCreated : Str := ("created").toList

/-- The event-type string "modified". -/
def sModified : Str := ("modified").toList

/-- The event-type string "deleted". -/
def sDeleted : Str := ("deleted").toList

def sTilde : Str := ("~").toList
def sDot : Str := (".").toList
def sSwp : Str := (".swp").toList
def sSwo : Str := (".swo").toList
def sPyc : Str := (".pyc").toList
def sPyo : Str := (".pyo").toList
def sPycache : Str := ("__pycache__").toList

/-- The components of a path split on the separator character, leftmost
first; never empty.  `os.path.basename` is the last component. -/
def splitOnSlash : Str → List Str
  | [] => [[]]
  | c :: rest =>
    match splitOnSlash rest with
    | [] => [[c]]
    | h :: t => if c = '/' then [] :: h :: t else (c :: h) :: t

/-- `os.path.basename`: everything after the last separator. -/
def basename (p : Str) : Str := (splitOnSlash p).getLastD []

/-- Boolean substring containment: Python's `in` on strings. -/
def isSubstr (needle : Str) : Str → Bool
  | [] => needle.isEmpty
  | c :: rest => needle.isPrefixOf (c :: rest) || isSubstr needle rest

/-- `is_temp_file` from watcher.py: editor temp files, hidden files, swap
files, compiled artifacts and `__pycache__` paths are ignored.  The last
test is Python's substring containment `"__pycache__" in path`. -/
def is_temp_file (path : Str) : Bool :=
  let filename := basename path
  sTilde.isSuffixOf filename || sDot.isPrefixOf filename ||
  sSwp.isSuffixOf filename || sSwo.isSuffixOf filename ||
  sPyc.isSuffixOf filename || sPyo.isSuffixOf filename ||
  isSubstr sPycache path

/-- One row of the SQLite `events` table (models.py `init_db`). -/
structure EventRec where
  id : Nat
  event_type : Str
  file_path : Str
  timestamp : Nat
  endpoint : Str
  hostname : Str
  username : Str
  hash_before : Option Hash
  hash_after : Option Hash
  state_hash : Option Hash
  content_hash : Option Hash
  synced_to_mongo : Bool
deriving DecidableEq, Inhabited

/-- The dictionary handed to `insert_event`; a key the caller leaves out is
`none` (Python's `data.get(...)` then yields `None`). -/
structure EventData where
  event_type : Str
  file_path : Str
  timestamp : Nat
  endpoint : Str
  hostname : Str
  username : Str
  hash_before : Option Hash
  hash_after : Option Hash
  state_hash : Option Hash
  content_hash : Option Hash
deriving DecidableEq, Inhabited

/-- The local store: committed rows plus the next AUTOINCREMENT id. -/
structure LogState where
  events : List EventRec
  nextId : Nat
deriving DecidableEq, Inhabited

/-- The freshly initialized database (AUTOINCREMENT starts at 1). -/
def LogState.empty : LogState := { events := [], nextId := 1 }

/-- The row `insert_event` commits: the caller's data under the fresh id,
with `synced_to_mongo` set by the subsequent UPDATE when the send succeeded. -/
def mkRec (i : Nat) (d : EventData) (sendOk : Bool) : EventRec :=
  { id := i, event_type := d.event_type, file_path := d.file_path,
    timestamp := d.timestamp, endpoint := d.endpoint, hostname := d.hostname,
    username := d.username, hash_before := d.hash_before,
    hash_after := d.hash_after, state_hash := d.state_hash,
    content_hash := d.content_hash, synced_to_mongo := sendOk }

/-- `insert_event` from models.py: INSERT the row with `synced_to_mongo = 0`,
remember `lastrowid`, commit, then attempt `send_event_to_mongo`; on success
UPDATE the row's flag to 1.  `sendOk` is the outcome of the send (it depends
on network and on the process-global connection state, modelled separately).
Returns the final store and the id `insert_event` returns. -/
def insert_event (st : LogState) (data : EventData) (sendOk : Bool) :
    LogState × Nat :=
  let row0 := mkRec st.nextId data false
  let row1 := if sendOk then { row0 with synced_to_mongo := true } else row0
  ({ events := st.events ++ [row1], nextId := st.nextId + 1 }, st.nextId)

/-- `b` sorts strictly after `a` in the scan of the `timestamp` index that
serves `get_latest_hash`'s `ORDER BY timestamp DESC LIMIT 1`: greater
timestamp, or equal timestamp and greater rowid (index entries with equal
keys are ordered by rowid, so the descending scan yields the greatest rowid
first among equal timestamps). -/
def laterEvent (a b : EventRec) : Bool :=
  Nat.blt a.timestamp b.timestamp ||
    (Nat.beq a.timestamp b.timestamp && Nat.blt a.id b.id)

/-- The row `get_latest_hash`'s query selects: among rows with the given
`file_path` and a non-null `hash_after`, the one the descending timestamp
index scan yields first. -/
def bestCandidate (p : Str) : List EventRec → Option EventRec
  | [] => none
  | e :: rest =>
    let r := bestCandidate p rest
    if e.file_path = p ∧ e.hash_after.isSome then
      match r with
      | none => some e
      | some b => if laterEvent e b then some b else some e
    else r

/-- `get_latest_hash` from models.py:
`SELECT hash_after FROM events WHERE file_path = ? AND hash_after IS NOT NULL
ORDER BY timestamp DESC LIMIT 1`. -/
def get_latest_hash (log : List EventRec) (file_path : Str) : Option Hash :=
  match bestCandidate file_path log with
  | some e => e.hash_after
  | none => none

/-- The filesystem as observed while one notification is processed:
`os.path.isfile` and `compute_hash`'s outcome (`none` when the file
vanished or cannot be read). -/
structure FS where
  isFile : Str → Bool
  compute : Str → Option Hash

/-- The handler's provenance fields (endpoint, hostname, username). -/
structure Ctx where
  endpoint : Str
  hostname : Str
  username : Str
deriving DecidableEq, Inhabited

/-- Observable side effects of processing one notification, in order:
a `compute_hash` call, a `get_latest_hash` query, an `insert_event` append. -/
inductive Effect where
  | hashCall (p : Str)
  | dbRead (p : Str)
  | dbAppend (p : Str)
deriving DecidableEq

/-- The `event_data` dictionary `_process_event` builds: it never carries
`state_hash` or `content_hash` keys, so `insert_event` stores NULL there. -/
def mkData (ty p : Str) (ts : Nat) (ctx : Ctx) (hb ha : Option Hash) :
    EventData :=
  { event_type := ty, file_path := p, timestamp := ts,
    endpoint := ctx.endpoint, hostname := ctx.hostname,
    username := ctx.username, hash_before := hb, hash_after := ha,
    state_hash := none, content_hash := none }

/-- `FIMEventHandler._process_event` from watcher.py.  Returns the store
after the notification and the list of side effects performed.  Control flow
mirrors the source: directory and temp-file notifications return before any
hashing or database access; `created`/`modified` return if the target is not
currently a regular file; `modified` suppresses when the fresh digest equals
the logged one; everything that falls through the type dispatch is inserted
with both hashes null. -/
def processEvent (fs : FS) (ctx : Ctx) (ts : Nat) (sendOk : Bool)
    (event_type : Str) (src_path : Str) (is_directory : Bool)
    (st : LogState) : LogState × List Effect :=
  if is_directory then (st, [])
  else if is_temp_file src_path then (st, [])
  else
    let file_path := src_path
    if event_type = sCreated then
      if fs.isFile file_path = false then (st, [])
      else
        let ha := fs.compute file_path
        ((insert_event st (mkData event_type file_path ts ctx none ha) sendOk).1,
         [Effect.hashCall file_path, Effect.dbAppend file_path])
    else if event_type = sModified then
      if fs.isFile file_path = false then (st, [])
      else
        let hb := get_latest_hash st.events file_path
        let ha := fs.compute file_path
        if hb = ha then (st, [Effect.dbRead file_path, Effect.hashCall file_path])
        else
          ((insert_event st (mkData event_type file_path ts ctx hb ha) sendOk).1,
           [Effect.dbRead file_path, Effect.hashCall file_path,
            Effect.dbAppend file_path])
    else if event_type = sDeleted then
      let hb := get_latest_hash st.events file_path
      ((insert_event st (mkData event_type file_path ts ctx hb none) sendOk).1,
       [Effect.dbRead file_path, Effect.dbAppend file_path])
    else
      ((insert_event st (mkData event_type file_path ts ctx none none) sendOk).1,
       [Effect.dbAppend file_path])

/-- `FIMEventHandler.on_moved` from watcher.py: for a non-directory move,
a delete classification at the source (unless it is a temp path) then a
create classification at the destination (unless it is a temp path). -/
def onMoved (fs : FS) (ctx : Ctx) (ts : Nat) (sendOk : Bool)
    (src_path dest_path : Str) (is_directory : Bool) (st : LogState) :
    LogState × List Effect :=
  if is_directory then (st, [])
  else
    let r1 := if is_temp_file src_path then (st, ([] : List Effect))
      else processEvent fs ctx ts sendOk sDeleted src_path false st
    let r2 := if is_temp_file dest_path then (r1.1, ([] : List Effect))
      else processEvent fs ctx ts sendOk sCreated dest_path false r1.1
    (r2.1, r1.2 ++ r2.2)

/-- One raw filesystem notification as watchdog delivers it. -/
inductive Notif where
  | created (p : Str) (isDir : Bool)
  | modified (p : Str) (isDir : Bool)
  | deleted (p : Str) (isDir : Bool)
  | moved (src dest : Str) (isDir : Bool)

/-- One step of the watch loop: the notification together with the
filesystem as observed at that instant, the wall-clock second, and the
outcome of the replication send attempted for any row it appends. -/
structure Step where
  notif : Notif
  fs : FS
  ts : Nat
  sendOk : Bool

/-- Dispatch of one notification through the `on_created` / `on_modified` /
`on_deleted` / `on_moved` handlers. -/
def runStep (ctx : Ctx) (s : Step) (st : LogState) : LogState × List Effect :=
  match s.notif with
  | .created p d => processEvent s.fs ctx s.ts s.sendOk sCreated p d st
  | .modified p d => processEvent s.fs ctx s.ts s.sendOk sModified p d st
  | .deleted p d => processEvent s.fs ctx s.ts s.sendOk sDeleted p d st
  | .moved a b d => onMoved s.fs ctx s.ts s.sendOk a b d st

/-- The single-worker watch loop: notifications processed in arrival order. -/
def runSteps (ctx : Ctx) : List Step → LogState → LogState
  | [], st => st
  | s :: rest, st => runSteps ctx rest (runStep ctx s st).1

/-- The module-level `_mongo_client` / `_mongo_collection` singleton of
mongo_client.py; `connected` holds iff the client was built and its ping and
collection lookup succeeded (`_mongo_client is not None`). -/
structure MongoSt where
  connected : Bool
deriving DecidableEq, Inhabited

/-- The module state right after import: no client built yet. -/
def mongoInit : MongoSt := { connected := false }

/-- `get_mongo_connection` from mongo_client.py.  `uriSet` is whether
MONGO_URI is non-empty, `netUp` whether a handshake attempted now would
succeed.  Returns the new module state, whether a usable collection handle
was returned, and how many fresh handshake attempts this call made (the
`MongoClient(...)` + ping inside the `if _mongo_client is None` block; on
failure the except branch resets `_mongo_client = None`). -/
def get_mongo_connection (uriSet netUp : Bool) (st : MongoSt) :
    MongoSt × Bool × Nat :=
  if uriSet = false then (st, false, 0)
  else if st.connected then (st, true, 0)
  else if netUp then ({ connected := true }, true, 1)
  else ({ connected := false }, false, 1)

/-- `send_event_to_mongo` from mongo_client.py: fetch the (possibly freshly
established) collection handle; without one return False; with one, the
insert succeeds or fails (`insertOk`).  Returns the new module state, the
boolean result, and the handshake attempts made. -/
def send_event_to_mongo (uriSet netUp insertOk : Bool) (st : MongoSt) :
    MongoSt × Bool × Nat :=
  let r := get_mongo_connection uriSet netUp st
  if r.2.1 = false then (r.1, false, r.2.2)
  else (r.1, insertOk, r.2.2)

/-- File metadata as `get_file_metadata` returns it (stat succeeded). -/
structure Metadata where
  size : Nat
  mtime : Nat
  ctime : Nat
  readonly : Bool
deriving DecidableEq, Inhabited

def sLB : Str := ("\x7b").toList
def sRB : Str := ("\x7d").toList
def sQ : Str := ("\x22").toList
def sColon : Str := (":").toList
def sComma : Str := (",").toList
def sTrue : Str := ("true").toList
def sFalse : Str := ("false").toList
def kContentHash : Str := ("content_hash").toList
def kMetadata : Str := ("metadata").toList
def kPath : Str := ("path").toList
def kCtime : Str := ("ctime").toList
def kMtime : Str := ("mtime").toList
def kReadonly : Str := ("readonly").toList
def kSize : Str := ("size").toList

/-- Decimal rendering of a natural, as Python's json module emits ints. -/
def natStr (n : Nat) : Str := (Nat.repr n).toList

/-- JSON booleans. -/
def boolStr (b : Bool) : Str := if b then sTrue else sFalse

/-- A JSON string literal (the digests, keys and paths serialized here
contain no characters that json.dumps would escape). -/
def jsonStr (s : Str) : Str := sQ ++ s ++ sQ

/-- One rendered key of a JSON object, with the `":"` item separator of
`separators=(",",":")`. -/
def jsonKey (k : Str) : Str := jsonStr k ++ sColon

/-- The members of a JSON object rendered in the given order, separated by
the `","` of `separators=(",",":")`. -/
def jsonFields : List (Str × Str) → Str
  | [] => []
  | [kv] => jsonKey kv.1 ++ kv.2
  | kv :: rest => jsonKey kv.1 ++ kv.2 ++ sComma ++ jsonFields rest

/-- A full JSON object. -/
def jsonObj (fields : List (Str × Str)) : Str := sLB ++ jsonFields fields ++ sRB

/-- The metadata dict's members in the order `sort_keys=True` emits them. -/
def metaFields (m : Metadata) : List (Str × Str) :=
  [(kCtime, natStr m.ctime), (kMtime, natStr m.mtime),
   (kReadonly, boolStr m.readonly), (kSize, natStr m.size)]

/-- `json.dumps` of the metadata value; the empty dict that
`get_file_metadata` returns on stat failure serializes as an empty object. -/
def serializeMeta : Option Metadata → Str
  | none => jsonObj []
  | some m => jsonObj (metaFields m)

/-- The `state_obj` dict's members in the order `sort_keys=True` emits them. -/
def stateFields (p : Str) (ch : Hash) (meta : Option Metadata) :
    List (Str × Str) :=
  [(kContentHash, jsonStr ch), (kMetadata, serializeMeta meta),
   (kPath, jsonStr p)]

/-- The canonical serialization `hash_state` digests:
`json.dumps(state_obj, sort_keys=True, separators=(",",":")).encode()`. -/
def serializeState (p : Str) (ch : Hash) (meta : Option Metadata) : Str :=
  jsonObj (stateFields p ch meta)

/-- The FileState dict `hash_state` returns on success. -/
structure FileState where
  path : Str
  content_hash : Hash
  metadata : Option Metadata
  state_hash : Hash
deriving DecidableEq

/-- `hash_state` from hashing.py with the filesystem observations abstracted:
`pathEx`/`isRegFile` are the `os.path.exists`/`os.path.isfile` guards, `meta`
is `get_file_metadata`'s result (`none` for the empty dict on failure),
`content` is `compute_hash`'s result, and `digest` is SHA-256 hexdigest as an
abstract function on byte strings (`os.path.abspath` again the identity). -/
def hash_state (digest : Str → Hash) (p : Str) (pathEx isRegFile : Bool)
    (meta : Option Metadata) (content : Option Hash) : Option FileState :=
  if pathEx = false ∨ isRegFile = false then none
  else
    match content with
    | none => none
    | some ch =>
      some { path := p, content_hash := ch, metadata := meta,
             state_hash := digest (serializeState p ch meta) }

/-- Lexicographic strict order on strings (byte order, as json.dumps
sorts keys). -/
def strLt : Str → Str → Bool
  | [], [] => false
  | [], _ :: _ => true
  | _ :: _, [] => false
  | a :: as, b :: bs => if a < b then true else if a = b then strLt as bs else false

/-- `a` sorts no later than `b` in the timestamp-then-rowid order. -/
def keyLE (a b : EventRec) : Prop :=
  a.timestamp < b.timestamp ∨ (a.timestamp = b.timestamp ∧ a.id ≤ b.id)

/-- Modelled from the spec's words for comparison with `get_latest_hash`:
the most recent record for the path — ordered by timestamp, ties broken by
id descending — among ALL of the path's records, whether or not their
`hash_after` is null. -/
def bestRecordSpec (p : Str) : List EventRec → Option EventRec
  | [] => none
  | e :: rest =>
    let r := bestRecordSpec p rest
    if e.file_path = p then
      match r with
      | none => some e
      | some b => if laterEvent e b then some b else some e
    else r

/-- Modelled from the spec's words: `latest_hash_after(path)` as §4.4 defines
it, the `hash_after` of the most recent record for the path (null when the
path has no record). -/
def latestHashAfterSpec (log : List EventRec) (p : Str) : Option Hash :=
  match bestRecordSpec p log with
  | some e => e.hash_after
  | none => none

/-- The two record-shape invariants of §3 that the classifier does maintain:
CREATED rows carry a null `hash_before` and DELETED rows a null `hash_after`. -/
def createdDeletedInv (log : List EventRec) : Prop :=
  ∀ e ∈ log, (e.event_type = sCreated → e.hash_before = none) ∧
             (e.event_type = sDeleted → e.hash_after = none)

/-- Modelled from the claim's wording: the Notification Filter's rejection
conditions as the spec states them — filename ends in `~`, starts with a
dot, ends in a swap-file suffix, ends in a compiled-artifact suffix, or the
path contains a `__pycache__` component.  (The code tests substring
containment for the last one, a superset of the component condition.) -/
def specFilterCond (p : Str) : Prop :=
  sTilde.isSuffixOf (basename p) = true ∨ sDot.isPrefixOf (basename p) = true ∨
  sSwp.isSuffixOf (basename p) = true ∨ sSwo.isSuffixOf (basename p) = true ∨
  sPyc.isSuffixOf (basename p) = true ∨ sPyo.isSuffixOf (basename p) = true ∨
  sPycache ∈ splitOnSlash p

/-! Concrete inputs for witnesses and counterexamples. -/

/-- A concrete provenance triple. -/
def ctxW : Ctx :=
  { endpoint := ("agent1").toList, hostname := ("host1").toList,
    username := ("user1").toList }

def pA : Str := ("/watched/a.txt").toList
def pB : Str := ("/watched/b.txt").toList
def pTmp : Str := ("/watched/draft.txt~").toList
def h1 : Hash := ("d41d8c").toList
def h2 : Hash := ("9b71d2").toList
def hHello : Hash := ("2cf24dba5fb0a30e26e83b2ac5b9e29e1b161e5c1fa7425e73043362938b9824").toList

/-- Concrete metadata for the `hello` file. -/
def metaW : Metadata := { size := 5, mtime := 1700000000, ctime := 1700000000, readonly := false }

/-- A filesystem where the path is a regular file with digest `h1`. -/
def fsH1 : FS := { isFile := fun _ => true, compute := fun _ => some h1 }

/-- A filesystem where the path is a regular file with digest `h2`. -/
def fsH2 : FS := { isFile := fun _ => true, compute := fun _ => some h2 }

/-- A filesystem where the path is a regular file whose bytes are `hello`. -/
def fsHello : FS := { isFile := fun _ => true, compute := fun _ => some hHello }

/-- A filesystem where `os.path.isfile` still succeeds but the read fails:
`compute_hash` returns its documented failure value (the file vanished or
became unreadable between the existence check and the open). -/
def fsGone : FS := { isFile := fun _ => true, compute := fun _ => none }

/-- A filesystem where the path does not exist. -/
def fsAbsent : FS := { isFile := fun _ => false, compute := fun _ => none }

/-- Create `a.txt` (digest `h1`), then delete it. -/
def stepsC2 : List Step :=
  [{ notif := .created pA false, fs := fsH1, ts := 1, sendOk := false },
   { notif := .deleted pA false, fs := fsAbsent, ts := 2, sendOk := false }]

/-- Delete an untracked path twice, create it (digest `h1`), then delete it
twice more: reachable via watchdog's delete notifications, which can repeat
for one path. -/
def stepsC4 : List Step :=
  [{ notif := .deleted pA false, fs := fsAbsent, ts := 1, sendOk := false },
   { notif := .deleted pA false, fs := fsAbsent, ts := 2, sendOk := false },
   { notif := .created pA false, fs := fsH1, ts := 3, sendOk := false },
   { notif := .deleted pA false, fs := fsAbsent, ts := 4, sendOk := false },
   { notif := .deleted pA false, fs := fsAbsent, ts := 5, sendOk := false }]

/-- Create `b.txt` with digest `h1` (used to seed a log with a prior hash). -/
def stepsSeedB : List Step :=
  [{ notif := .created pB false, fs := fsH1, ts := 1, sendOk := false }]

/-! Helper lemmas. -/

theorem tyNe_mc : ¬ (sModified = sCreated) := by decide

theorem tyNe_dc : ¬ (sDeleted = sCreated) := by decide

theorem tyNe_dm : ¬ (sDeleted = sModified) := by decide

theorem tyNe_cd : ¬ (sCreated = sDeleted) := by decide

theorem tyNe_md : ¬ (sModified = sDeleted) := by decide

/-- `insert_event` in closed form: the committed row is the caller's data
under the fresh id, with the sync flag recording the send's outcome. -/
theorem insert_event_eq (st : LogState) (d : EventData) (b : Bool) :
    insert_event st d b =
      ({ events := st.events ++ [mkRec st.nextId d b], nextId := st.nextId + 1 },
       st.nextId) := by
  cases b <;> rfl

/-- Directory notifications are dropped before anything happens. -/
theorem processEvent_dir (fs : FS) (ctx : Ctx) (ts : Nat) (sendOk : Bool)
    (ty p : Str) (st : LogState) :
    processEvent fs ctx ts sendOk ty p true st = (st, []) := by
  simp [processEvent]

/-- Temp-file notifications are dropped before anything happens. -/
theorem processEvent_temp (fs : FS) (ctx : Ctx) (ts : Nat) (sendOk : Bool)
    (ty p : Str) (st : LogState) (h : is_temp_file p = true) :
    processEvent fs ctx ts sendOk ty p false st = (st, []) := by
  simp [processEvent, h]

/-- The `created` branch in closed form on an unfiltered regular file. -/
theorem processEvent_created_eq (fs : FS) (ctx : Ctx) (ts : Nat) (sendOk : Bool)
    (p : Str) (st : LogState)
    (htmp : is_temp_file p = false) (hfile : fs.isFile p = true) :
    processEvent fs ctx ts sendOk sCreated p false st =
      ((insert_event st (mkData sCreated p ts ctx none (fs.compute p)) sendOk).1,
       [Effect.hashCall p, Effect.dbAppend p]) := by
  simp [processEvent, htmp, hfile]

/-- The `modified` branch in closed form on an unfiltered regular file. -/
theorem processEvent_modified_eq (fs : FS) (ctx : Ctx) (ts : Nat) (sendOk : Bool)
    (p : Str) (st : LogState)
    (htmp : is_temp_file p = false) (hfile : fs.isFile p = true) :
    processEvent fs ctx ts sendOk sModified p false st =
      (if get_latest_hash st.events p = fs.compute p then
        (st, [Effect.dbRead p, Effect.hashCall p])
      else
        ((insert_event st
            (mkData sModified p ts ctx (get_latest_hash st.events p)
              (fs.compute p)) sendOk).1,
         [Effect.dbRead p, Effect.hashCall p, Effect.dbAppend p])) := by
  simp [processEvent, htmp, hfile, tyNe_mc]

/-- The `deleted` branch in closed form on an unfiltered path. -/
theorem processEvent_deleted_eq (fs : FS) (ctx : Ctx) (ts : Nat) (sendOk : Bool)
    (p : Str) (st : LogState) (htmp : is_temp_file p = false) :
    processEvent fs ctx ts sendOk sDeleted p false st =
      ((insert_event st
          (mkData sDeleted p ts ctx (get_latest_hash st.events p) none) sendOk).1,
       [Effect.dbRead p, Effect.dbAppend p]) := by
  simp [processEvent, htmp, tyNe_dc, tyNe_dm]

theorem laterEvent_iff (a b : EventRec) :
    laterEvent a b = true ↔
      (a.timestamp < b.timestamp ∨
        (a.timestamp = b.timestamp ∧ a.id < b.id)) := by
  simp [laterEvent, Nat.blt_eq, Nat.beq_eq]

theorem keyLE_of_laterEvent {a b : EventRec} (h : laterEvent a b = true) :
    keyLE a b := by
  rcases (laterEvent_iff a b).1 h with h | ⟨h1, h2⟩
  · exact Or.inl h
  · exact Or.inr ⟨h1, Nat.le_of_lt h2⟩

theorem keyLE_of_not_laterEvent {a b : EventRec} (h : laterEvent a b = false) :
    keyLE b a := by
  have h' : ¬ (a.timestamp < b.timestamp ∨
      (a.timestamp = b.timestamp ∧ a.id < b.id)) := by
    intro hc
    rw [(laterEvent_iff a b).2 hc] at h
    cases h
  unfold keyLE
  omega

theorem keyLE_refl (a : EventRec) : keyLE a a := Or.inr ⟨rfl, Nat.le_refl _⟩

theorem keyLE_trans {a b c : EventRec} (h1 : keyLE a b) (h2 : keyLE b c) :
    keyLE a c := by
  unfold keyLE at *
  omega

/-- Unfolding equation for the index-scan selection on a nonempty table. -/
theorem bestCandidate_cons (p : Str) (a : EventRec) (rest : List EventRec) :
    bestCandidate p (a :: rest) =
      if a.file_path = p ∧ a.hash_after.isSome = true then
        match bestCandidate p rest with
        | none => some a
        | some b => if laterEvent a b then some b else some a
      else bestCandidate p rest := rfl

/-- A `none` result of the index scan means no row of the path has a
non-null `hash_after`. -/
theorem bestCandidate_none (p : Str) (log : List EventRec)
    (hn : bestCandidate p log = none) :
    ∀ e ∈ log, e.file_path = p → e.hash_after.isSome = true → False := by
  induction log with
  | nil => intro e he; cases he
  | cons a rest ih =>
    intro e he hfp hsome
    rw [bestCandidate_cons] at hn
    by_cases hc : a.file_path = p ∧ a.hash_after.isSome = true
    · exfalso
      rw [if_pos hc] at hn
      cases hb : bestCandidate p rest with
      | none => rw [hb] at hn; cases hn
      | some b => rw [hb] at hn; dsimp only at hn; split at hn <;> cases hn
    · have hn' : bestCandidate p rest = none := by
        rwa [if_neg hc] at hn
      rcases List.mem_cons.1 he with rfl | hm
      · exact hc ⟨hfp, hsome⟩
      · exact ih hn' e hm hfp hsome

/-- The row the index scan selects is a row of the table, matches the path,
has a non-null `hash_after`, and is maximal in the timestamp-then-rowid
order among all such rows. -/
theorem bestCandidate_some (p : Str) (log : List EventRec) (e : EventRec)
    (hs : bestCandidate p log = some e) :
    e ∈ log ∧ e.file_path = p ∧ e.hash_after.isSome = true ∧
      ∀ e' ∈ log, e'.file_path = p → e'.hash_after.isSome = true →
        keyLE e' e := by
  induction log generalizing e with
  | nil => cases hs
  | cons a rest ih =>
    rw [bestCandidate_cons] at hs
    by_cases hc : a.file_path = p ∧ a.hash_after.isSome = true
    · rw [if_pos hc] at hs
      cases hb : bestCandidate p rest with
      | none =>
        rw [hb] at hs; dsimp only at hs
        cases hs
        refine ⟨List.mem_cons_self _ _, hc.1, hc.2, ?_⟩
        intro e' he' hfp' hsome'
        rcases List.mem_cons.1 he' with rfl | hm
        · exact keyLE_refl _
        · exact (bestCandidate_none p rest hb e' hm hfp' hsome').elim
      | some b =>
        rw [hb] at hs; dsimp only at hs
        obtain ⟨hmem, hfp, hsome, hmax⟩ := ih b hb
        by_cases hl : laterEvent a b = true
        · rw [if_pos hl] at hs
          cases hs
          refine ⟨List.mem_cons_of_mem _ hmem, hfp, hsome, ?_⟩
          intro e' he' hfp' hsome'
          rcases List.mem_cons.1 he' with rfl | hm
          · exact keyLE_of_laterEvent hl
          · exact hmax e' hm hfp' hsome'
        · rw [if_neg hl] at hs
          cases hs
          refine ⟨List.mem_cons_self _ _, hc.1, hc.2, ?_⟩
          intro e' he' hfp' hsome'
          rcases List.mem_cons.1 he' with rfl | hm
          · exact keyLE_refl _
          · exact keyLE_trans (hmax e' hm hfp' hsome')
              (keyLE_of_not_laterEvent (Bool.not_eq_true _ ▸ hl))
    · rw [if_neg hc] at hs
      obtain ⟨hmem, hfp, hsome, hmax⟩ := ih e hs
      refine ⟨List.mem_cons_of_mem _ hmem, hfp, hsome, ?_⟩
      intro e' he' hfp' hsome'
      rcases List.mem_cons.1 he' with rfl | hm
      · exact absurd ⟨hfp', hsome'⟩ hc
      · exact hmax e' hm hfp' hsome'

/-- Appending two rows that agree on every column `get_latest_hash` reads
(path, hash, timestamp, rowid) yields the same selection, up to the row
appended. -/
theorem bestCandidate_last_congr (p : Str) (r1 r2 : EventRec)
    (hfp : r1.file_path = r2.file_path) (hha : r1.hash_after = r2.hash_after)
    (hts : r1.timestamp = r2.timestamp) (hid : r1.id = r2.id) :
    ∀ l : List EventRec,
      bestCandidate p (l ++ [r1]) = bestCandidate p (l ++ [r2]) ∨
        (bestCandidate p (l ++ [r1]) = some r1 ∧
          bestCandidate p (l ++ [r2]) = some r2) := by
  intro l
  induction l with
  | nil =>
    by_cases hc : r1.file_path = p ∧ r1.hash_after.isSome = true
    · right
      constructor
      · simp [bestCandidate, hc]
      · have hc2 : r2.file_path = p ∧ r2.hash_after.isSome = true := by
          rw [← hfp, ← hha]; exact hc
        simp [bestCandidate, hc2]
    · left
      have hc2 : ¬ (r2.file_path = p ∧ r2.hash_after.isSome = true) := by
        rw [← hfp, ← hha]; exact hc
      simp [bestCandidate, hc, hc2]
  | cons a l ih =>
    rw [List.cons_append, List.cons_append, bestCandidate_cons,
      bestCandidate_cons]
    by_cases hc : a.file_path = p ∧ a.hash_after.isSome = true
    · rw [if_pos hc, if_pos hc]
      rcases ih with he | ⟨h1, h2⟩
      · left; rw [he]
      · rw [h1, h2]
        dsimp only
        have hle : laterEvent a r1 = laterEvent a r2 := by
          unfold laterEvent
          rw [hts, hid]
        by_cases hl : laterEvent a r1 = true
        · right
          rw [if_pos hl, if_pos (hle ▸ hl)]
          exact ⟨rfl, rfl⟩
        · left
          rw [if_neg hl, if_neg (hle ▸ hl)]
    · rw [if_neg hc, if_neg hc]
      exact ih

/-- `get_latest_hash` never reads `synced_to_mongo`: whether the appended
row's replication send succeeded cannot change any later lookup. -/
theorem get_latest_hash_synced_irrel (l : List EventRec) (p : Str) (i : Nat)
    (d : EventData) (b b' : Bool) :
    get_latest_hash (l ++ [mkRec i d b]) p =
      get_latest_hash (l ++ [mkRec i d b']) p := by
  rcases bestCandidate_last_congr p (mkRec i d b) (mkRec i d b') rfl rfl rfl
    rfl l with he | ⟨h1, h2⟩
  · unfold get_latest_hash
    rw [he]
  · unfold get_latest_hash
    rw [h1, h2]
    rfl

/-- Every way `_process_event` can change the table: either nothing is
appended, or exactly one row is, and that row satisfies the CREATED/DELETED
null-hash invariants. -/
theorem processEvent_events_shape (fs : FS) (ctx : Ctx) (ts : Nat)
    (sendOk : Bool) (ty p : Str) (dir : Bool) (st : LogState) :
    (processEvent fs ctx ts sendOk ty p dir st).1.events = st.events ∨
    ∃ r : EventRec,
      (processEvent fs ctx ts sendOk ty p dir st).1.events =
        st.events ++ [r] ∧
      (r.event_type = sCreated → r.hash_before = none) ∧
      (r.event_type = sDeleted → r.hash_after = none) := by
  cases dir with
  | true => left; rw [processEvent_dir]
  | false =>
    by_cases htmp : is_temp_file p = true
    · left; rw [processEvent_temp fs ctx ts sendOk ty p st htmp]
    · rw [Bool.not_eq_true] at htmp
      by_cases hty1 : ty = sCreated
      · subst hty1
        by_cases hfile : fs.isFile p = true
        · right
          refine ⟨mkRec st.nextId (mkData sCreated p ts ctx none (fs.compute p))
            sendOk, ?_, ?_, ?_⟩
          · rw [processEvent_created_eq fs ctx ts sendOk p st htmp hfile,
              insert_event_eq]
          · intro _; rfl
          · intro hd
            exact absurd hd tyNe_cd
        · left
          rw [Bool.not_eq_true] at hfile
          simp [processEvent, htmp, hfile]
      · by_cases hty2 : ty = sModified
        · subst hty2
          by_cases hfile : fs.isFile p = true
          · by_cases hsame : get_latest_hash st.events p = fs.compute p
            · left
              rw [processEvent_modified_eq fs ctx ts sendOk p st htmp hfile,
                if_pos hsame]
            · right
              refine ⟨mkRec st.nextId
                (mkData sModified p ts ctx (get_latest_hash st.events p)
                  (fs.compute p)) sendOk, ?_, ?_, ?_⟩
              · rw [processEvent_modified_eq fs ctx ts sendOk p st htmp hfile,
                  if_neg hsame, insert_event_eq]
              · intro hcr
                exact absurd hcr tyNe_mc
              · intro hd
                exact absurd hd tyNe_md
          · left
            rw [Bool.not_eq_true] at hfile
            simp [processEvent, htmp, hfile, tyNe_mc]
        · by_cases hty3 : ty = sDeleted
          · subst hty3
            right
            refine ⟨mkRec st.nextId
              (mkData sDeleted p ts ctx (get_latest_hash st.events p) none)
              sendOk, ?_, ?_, ?_⟩
            · rw [processEvent_deleted_eq fs ctx ts sendOk p st htmp,
                insert_event_eq]
            · intro hcr
              exact absurd hcr tyNe_dc
            · intro _; rfl
          · right
            refine ⟨mkRec st.nextId (mkData ty p ts ctx none none) sendOk,
              ?_, ?_, ?_⟩
            · simp [processEvent, htmp, hty1, hty2, hty3, insert_event_eq]
            · intro _; rfl
            · intro _; rfl

/-- The invariant survives appending a row that satisfies it. -/
theorem createdDeletedInv_append {l : List EventRec} {r : EventRec}
    (hl : createdDeletedInv l)
    (h1 : r.event_type = sCreated → r.hash_before = none)
    (h2 : r.event_type = sDeleted → r.hash_after = none) :
    createdDeletedInv (l ++ [r]) := by
  intro e he
  rcases List.mem_append.1 he with h | h
  · exact hl e h
  · rw [List.mem_singleton.1 h]
    exact ⟨h1, h2⟩

/-- `_process_event` preserves the CREATED/DELETED null-hash invariants. -/
theorem processEvent_inv (fs : FS) (ctx : Ctx) (ts : Nat) (sendOk : Bool)
    (ty p : Str) (dir : Bool) (st : LogState)
    (h : createdDeletedInv st.events) :
    createdDeletedInv (processEvent fs ctx ts sendOk ty p dir st).1.events := by
  rcases processEvent_events_shape fs ctx ts sendOk ty p dir st with
    he | ⟨r, he, h1, h2⟩
  · rw [he]; exact h
  · rw [he]; exact createdDeletedInv_append h h1 h2

/-- `on_moved` preserves the CREATED/DELETED null-hash invariants. -/
theorem onMoved_inv (fs : FS) (ctx : Ctx) (ts : Nat) (sendOk : Bool)
    (src dest : Str) (dir : Bool) (st : LogState)
    (h : createdDeletedInv st.events) :
    createdDeletedInv (onMoved fs ctx ts sendOk src dest dir st).1.events := by
  cases dir with
  | true => simpa [onMoved] using h
  | false =>
    have h1 : createdDeletedInv
        (if is_temp_file src then (st, ([] : List Effect))
          else processEvent fs ctx ts sendOk sDeleted src false st).1.events := by
      split
      · exact h
      · exact processEvent_inv fs ctx ts sendOk sDeleted src false st h
    unfold onMoved
    dsimp only
    rw [if_neg (by simp)]
    split
    · exact h1
    · exact processEvent_inv fs ctx ts sendOk sCreated dest false _ h1

/-- One handler dispatch preserves the invariants. -/
theorem runStep_inv (ctx : Ctx) (s : Step) (st : LogState)
    (h : createdDeletedInv st.events) :
    createdDeletedInv (runStep ctx s st).1.events := by
  rcases s with ⟨n, fs, ts, so⟩
  cases n with
  | created p d => exact processEvent_inv fs ctx ts so sCreated p d st h
  | modified p d => exact processEvent_inv fs ctx ts so sModified p d st h
  | deleted p d => exact processEvent_inv fs ctx ts so sDeleted p d st h
  | moved a b d => exact onMoved_inv fs ctx ts so a b d st h

/-- The watch loop preserves the invariants along any run. -/
theorem runSteps_inv (ctx : Ctx) :
    ∀ (steps : List Step) (st : LogState), createdDeletedInv st.events →
      createdDeletedInv (runSteps ctx steps st).events
  | [], _, h => h
  | s :: rest, st, h =>
    runSteps_inv ctx rest (runStep ctx s st).1 (runStep_inv ctx s st h)

/-- Unfolding equation for the path split at a nonempty path. -/
theorem splitOnSlash_cons (c : Char) (rest : Str) :
    splitOnSlash (c :: rest) =
      match splitOnSlash rest with
      | [] => [[c]]
      | h :: t => if c = '/' then [] :: h :: t else (c :: h) :: t := rfl

/-- The split of a path is never the empty list of components. -/
theorem splitOnSlash_ne_nil (p : Str) : splitOnSlash p ≠ [] := by
  cases p with
  | nil => simp [splitOnSlash]
  | cons c rest =>
    rw [splitOnSlash_cons]
    cases splitOnSlash rest with
    | nil => simp
    | cons h t =>
      dsimp only
      by_cases hc : c = '/'
      · rw [if_pos hc]; simp
      · rw [if_neg hc]; simp

/-- The first component of the split is a prefix of the path. -/
theorem splitOnSlash_head_pre (p : Str) :
    ∃ t, ((splitOnSlash p).headD []) ++ t = p := by
  induction p with
  | nil => exact ⟨[], rfl⟩
  | cons c rest ih =>
    rw [splitOnSlash_cons]
    cases hr : splitOnSlash rest with
    | nil => exact absurd hr (splitOnSlash_ne_nil rest)
    | cons h t =>
      dsimp only
      by_cases hc : c = '/'
      · rw [if_pos hc]
        exact ⟨c :: rest, rfl⟩
      · rw [if_neg hc]
        rw [hr] at ih
        obtain ⟨u, hu⟩ := ih
        exact ⟨u, by simpa using hu⟩

/-- Every component of the split occurs inside the path. -/
theorem splitOnSlash_mem_infix (p s : Str) (hm : s ∈ splitOnSlash p) :
    ∃ l r, l ++ s ++ r = p := by
  induction p generalizing s with
  | nil =>
    simp only [splitOnSlash, List.mem_singleton] at hm
    exact ⟨[], [], by simp [hm]⟩
  | cons c rest ih =>
    rw [splitOnSlash_cons] at hm
    cases hr : splitOnSlash rest with
    | nil => exact absurd hr (splitOnSlash_ne_nil rest)
    | cons h t =>
      rw [hr] at hm
      dsimp only at hm
      by_cases hc : c = '/'
      · rw [if_pos hc] at hm
        rcases List.mem_cons.1 hm with rfl | hm'
        · exact ⟨[], c :: rest, rfl⟩
        · obtain ⟨l, r, hlr⟩ := ih s (hr ▸ hm')
          exact ⟨c :: l, r, by simpa using hlr⟩
      · rw [if_neg hc] at hm
        rcases List.mem_cons.1 hm with rfl | hm'
        · obtain ⟨u, hu⟩ := splitOnSlash_head_pre rest
          rw [hr] at hu
          dsimp only [List.headD] at hu
          exact ⟨[], u, by simpa using hu⟩
        · obtain ⟨l, r, hlr⟩ := ih s
            (by rw [hr]; exact List.mem_cons_of_mem _ hm')
          exact ⟨c :: l, r, by simpa using hlr⟩

/-- A list is a Boolean prefix of itself followed by anything. -/
theorem isPrefixOf_self_append (needle r : Str) :
    needle.isPrefixOf (needle ++ r) = true := by
  induction needle with
  | nil => cases r <;> rfl
  | cons a t ih => simp [List.isPrefixOf, ih]

/-- Unfolding equation for substring containment at a nonempty hay. -/
theorem isSubstr_cons (needle : Str) (c : Char) (cs : Str) :
    isSubstr needle (c :: cs) =
      (needle.isPrefixOf (c :: cs) || isSubstr needle cs) := rfl

/-- Substring containment holds whenever the needle occurs inside the hay. -/
theorem isSubstr_of_parts (needle : Str) :
    ∀ (l r : Str), isSubstr needle (l ++ needle ++ r) = true := by
  intro l
  induction l with
  | nil =>
    intro r
    rw [List.nil_append]
    cases hn : needle ++ r with
    | nil =>
      rcases List.append_eq_nil.mp hn with ⟨rfl, rfl⟩
      rfl
    | cons c cs =>
      rw [isSubstr_cons, ← hn]
      simp [isPrefixOf_self_append]
  | cons a l ihl =>
    intro r
    rw [List.cons_append, List.cons_append, isSubstr_cons]
    simp only [Bool.or_eq_true]
    right
    simpa using ihl r

/-- Each of the spec's filter conditions lands in `is_temp_file`'s
acceptance: the spec's component condition implies the code's substring
test. -/
theorem is_temp_of_spec (p : Str) (h : specFilterCond p) :
    is_temp_file p = true := by
  unfold is_temp_file
  simp only [Bool.or_eq_true]
  rcases h with h | h | h | h | h | h | h
  · exact Or.inl (Or.inl (Or.inl (Or.inl (Or.inl (Or.inl h)))))
  · exact Or.inl (Or.inl (Or.inl (Or.inl (Or.inl (Or.inr h)))))
  · exact Or.inl (Or.inl (Or.inl (Or.inl (Or.inr h))))
  · exact Or.inl (Or.inl (Or.inl (Or.inr h)))
  · exact Or.inl (Or.inl (Or.inr h))
  · exact Or.inl (Or.inr h)
  · obtain ⟨l, r, hlr⟩ := splitOnSlash_mem_infix p sPycache h
    right
    rw [← hlr]
    exact isSubstr_of_parts sPycache l r

/-! The claims. -/

/-- C1: on a modify notification for an unfiltered regular file, when the
freshly computed digest equals the prior digest recorded in the log
(`get_latest_hash` of the path) no MODIFIED row is appended; otherwise
exactly one MODIFIED row is appended, with `hash_before` the logged prior
digest and `hash_after` the fresh digest. -/
theorem C1_modify_suppression (fs : FS) (ctx : Ctx) (ts : Nat) (sendOk : Bool)
    (p : Str) (st : LogState) (h : Hash)
    (htmp : is_temp_file p = false) (hfile : fs.isFile p = true)
    (hcmp : fs.compute p = some h) :
    (get_latest_hash st.events p = some h →
      (processEvent fs ctx ts sendOk sModified p false st).1 = st) ∧
    (get_latest_hash st.events p ≠ some h →
      (processEvent fs ctx ts sendOk sModified p false st).1.events =
        st.events ++
          [mkRec st.nextId
            (mkData sModified p ts ctx (get_latest_hash st.events p) (some h))
            sendOk]) := by
  have he := processEvent_modified_eq fs ctx ts sendOk p st htmp hfile
  rw [hcmp] at he
  constructor
  · intro hsame
    rw [he, if_pos hsame]
  · intro hdiff
    rw [he, if_neg hdiff, insert_event_eq]

/-- Witness for C1 at a concrete modify notification on an empty log. -/
theorem C1_modify_suppression_wit :
    (get_latest_hash LogState.empty.events pA = some h1 →
      (processEvent fsH1 ctxW 5 false sModified pA false LogState.empty).1 =
        LogState.empty) ∧
    (get_latest_hash LogState.empty.events pA ≠ some h1 →
      (processEvent fsH1 ctxW 5 false sModified pA false
          LogState.empty).1.events =
        LogState.empty.events ++
          [mkRec LogState.empty.nextId
            (mkData sModified pA 5 ctxW
              (get_latest_hash LogState.empty.events pA) (some h1)) false]) :=
  C1_modify_suppression fsH1 ctxW 5 false pA LogState.empty h1 (by decide)
    rfl rfl

/-- C2 counterexample: after CREATED then DELETED for `a.txt`,
`get_latest_hash` returns the pre-deletion digest, not the null `hash_after`
of the most recent record as the claim states (the query filters
`hash_after IS NOT NULL`). -/
theorem C2_latest_cex :
    (runSteps ctxW stepsC2 LogState.empty).events.map
        (fun e => (e.event_type, e.timestamp, e.id, e.hash_after)) =
      [(sCreated, 1, 1, some h1), (sDeleted, 2, 2, none)] ∧
    get_latest_hash (runSteps ctxW stepsC2 LogState.empty).events pA =
      some h1 ∧
    latestHashAfterSpec (runSteps ctxW stepsC2 LogState.empty).events pA =
      none := by decide

/-- C2 amended: `get_latest_hash p` returns the `hash_after` of the most
recent record for `p` among records with non-null `hash_after` (greatest
timestamp, ties to the greatest id); it returns null only when `p` has no
record with a non-null `hash_after` — in particular, after a DELETED event
it returns the most recent non-null digest, not null. -/
theorem C2_latest_amended (log : List EventRec) (p : Str) :
    (∀ h : Hash, get_latest_hash log p = some h →
      ∃ e, e ∈ log ∧ e.file_path = p ∧ e.hash_after = some h ∧
        ∀ e' ∈ log, e'.file_path = p → e'.hash_after ≠ none → keyLE e' e) ∧
    (get_latest_hash log p = none →
      ∀ e ∈ log, e.file_path = p → e.hash_after = none) := by
  constructor
  · intro h hg
    unfold get_latest_hash at hg
    cases hb : bestCandidate p log with
    | none => rw [hb] at hg; cases hg
    | some e =>
      rw [hb] at hg
      obtain ⟨hmem, hfp, _, hmax⟩ := bestCandidate_some p log e hb
      exact ⟨e, hmem, hfp, hg, fun e' he' hfp' hne =>
        hmax e' he' hfp' (Option.isSome_iff_ne_none.mpr hne)⟩
  · intro hg e he hfp
    unfold get_latest_hash at hg
    cases hb : bestCandidate p log with
    | none =>
      by_contra hne
      exact bestCandidate_none p log hb e he hfp
        (Option.isSome_iff_ne_none.mpr hne)
    | some b =>
      rw [hb] at hg
      dsimp only at hg
      obtain ⟨_, _, hsome, _⟩ := bestCandidate_some p log b hb
      rw [hg] at hsome
      cases hsome

/-- C3: the code, at the failing input — a create (resp. modify)
notification on an unfiltered regular file whose `compute_hash` fails and
returns its documented absence value.  The spec says the notification must
be a no-op, but a CREATED row with null `hash_after` (resp. a MODIFIED row
with null `hash_after` when a prior digest exists) is appended. -/
theorem C3_fingerprint_failure_record :
    (processEvent fsGone ctxW 1 false sCreated pB false
        LogState.empty).1.events.map
        (fun e => (e.event_type, e.hash_before, e.hash_after)) =
      [(sCreated, none, none)] ∧
    (processEvent fsGone ctxW 2 false sModified pB false
        (runSteps ctxW stepsSeedB LogState.empty)).1.events.map
        (fun e => (e.event_type, e.hash_before, e.hash_after)) =
      [(sCreated, none, some h1), (sModified, some h1, none)] := by decide

/-- C4 counterexample: a reachable run — delete an untracked path twice,
create it, then delete it twice more — persists two consecutive no-op
transitions (rows 1 and 2: `hash_before = hash_after = null`) and breaks the
chain equality (row 4 has `hash_after = null` while row 5 has
`hash_before = some h1`, because `get_latest_hash` skips null rows). -/
theorem C4_invariants_cex :
    (runSteps ctxW stepsC4 LogState.empty).events.map
        (fun e => (e.event_type, e.hash_before, e.hash_after)) =
      [(sDeleted, none, none), (sDeleted, none, none),
       (sCreated, none, some h1), (sDeleted, some h1, none),
       (sDeleted, some h1, none)] ∧
    (runSteps ctxW stepsC4 LogState.empty).events.map
        (fun e => e.file_path) = [pA, pA, pA, pA, pA] := by decide

/-- C4 amended: along any run of the watch loop, every persisted event
satisfies the two surviving invariants — CREATED implies `hash_before` is
null and DELETED implies `hash_after` is null.  (The chain equality between
consecutive events of a path and the absence of consecutive no-change
transitions do not hold; see the counterexample.) -/
theorem C4_invariants_amended (ctx : Ctx) (steps : List Step) :
    createdDeletedInv (runSteps ctx steps LogState.empty).events :=
  runSteps_inv ctx steps LogState.empty
    (fun e he => absurd he (List.not_mem_nil e))

/-- C5 counterexample: creating `a.txt` whose bytes are `hello` appends
exactly one CREATED row, but that row's `state_hash` and `content_hash`
columns are null — it does not carry the state digest — and its
`hash_after` is `compute_hash`'s raw content digest; `hash_state`'s state
digest is taken over the canonical serialization, which differs from the
raw content digest (shown with the identity in place of the abstract
SHA-256). -/
theorem C5_state_hash_cex :
    (processEvent fsHello ctxW 1 false sCreated pA false
        LogState.empty).1.events.map
        (fun e => (e.event_type, e.hash_before, e.hash_after)) =
      [(sCreated, none, some hHello)] ∧
    (processEvent fsHello ctxW 1 false sCreated pA false
        LogState.empty).1.events.map
        (fun e => (e.state_hash, e.content_hash)) =
      [(none, none)] ∧
    hash_state (fun s => s) pA true true (some metaW) (some hHello) =
      some { path := pA, content_hash := hHello, metadata := some metaW,
             state_hash := serializeState pA hHello (some metaW) } ∧
    serializeState pA hHello (some metaW) ≠ hHello := by decide

/-- C5 amended: a create notification on an unfiltered regular file appends
exactly one CREATED row with `hash_before` null and `hash_after` the raw
content digest `compute_hash` returns; the row's `state_hash` and
`content_hash` columns are null, because the watcher never calls
`hash_state` and `_process_event`'s event dictionary carries no such keys. -/
theorem C5_created_amended (fs : FS) (ctx : Ctx) (ts : Nat) (sendOk : Bool)
    (p : Str) (st : LogState) (h : Hash)
    (htmp : is_temp_file p = false) (hfile : fs.isFile p = true)
    (hcmp : fs.compute p = some h) :
    (processEvent fs ctx ts sendOk sCreated p false st).1.events =
      st.events ++
        [mkRec st.nextId (mkData sCreated p ts ctx none (some h)) sendOk] ∧
    (mkRec st.nextId (mkData sCreated p ts ctx none (some h))
      sendOk).event_type = sCreated ∧
    (mkRec st.nextId (mkData sCreated p ts ctx none (some h))
      sendOk).hash_before = none ∧
    (mkRec st.nextId (mkData sCreated p ts ctx none (some h))
      sendOk).hash_after = some h ∧
    (mkRec st.nextId (mkData sCreated p ts ctx none (some h))
      sendOk).state_hash = none ∧
    (mkRec st.nextId (mkData sCreated p ts ctx none (some h))
      sendOk).content_hash = none := by
  have he := processEvent_created_eq fs ctx ts sendOk p st htmp hfile
  rw [hcmp] at he
  exact ⟨by rw [he, insert_event_eq], rfl, rfl, rfl, rfl, rfl⟩

/-- Witness for C5's amended claim at the `hello` file on an empty log. -/
theorem C5_created_amended_wit :
    (processEvent fsHello ctxW 1 false sCreated pA false
        LogState.empty).1.events =
      LogState.empty.events ++
        [mkRec LogState.empty.nextId
          (mkData sCreated pA 1 ctxW none (some hHello)) false] ∧
    (mkRec LogState.empty.nextId
      (mkData sCreated pA 1 ctxW none (some hHello)) false).event_type =
      sCreated ∧
    (mkRec LogState.empty.nextId
      (mkData sCreated pA 1 ctxW none (some hHello)) false).hash_before =
      none ∧
    (mkRec LogState.empty.nextId
      (mkData sCreated pA 1 ctxW none (some hHello)) false).hash_after =
      some hHello ∧
    (mkRec LogState.empty.nextId
      (mkData sCreated pA 1 ctxW none (some hHello)) false).state_hash =
      none ∧
    (mkRec LogState.empty.nextId
      (mkData sCreated pA 1 ctxW none (some hHello)) false).content_hash =
      none :=
  C5_created_amended fsHello ctxW 1 false pA LogState.empty hHello
    (by decide) rfl rfl

/-- C6 counterexample: with a URI configured and the remote down, the first
send makes a handshake attempt and fails — and the next send makes another
full handshake attempt (1, not 0), because the except branch resets
`_mongo_client` to None; subsequent sends are not skipped cheaply. -/
theorem C6_memoized_cex :
    (send_event_to_mongo true false true mongoInit).2.2 = 1 ∧
    (send_event_to_mongo true false true mongoInit).2.1 = false ∧
    (send_event_to_mongo true false true mongoInit).1 = mongoInit ∧
    (send_event_to_mongo true false true
      (send_event_to_mongo true false true mongoInit).1).2.2 = 1 ∧
    (send_event_to_mongo true false true
      (send_event_to_mongo true false true mongoInit).1).2.1 = false := by
  decide

/-- C6 amended: the connection is lazy and memoized only on success — once
a handshake succeeds, every later call reuses the handle with zero fresh
attempts; with no URI configured, sends are skipped with zero attempts; but
after a failed handshake the client is reset, so every subsequent send
performs one fresh handshake attempt (with its timeout) instead of being
skipped. -/
theorem C6_memoized_amended :
    (∀ (st : MongoSt) (netUp : Bool), st.connected = true →
      get_mongo_connection true netUp st = (st, true, 0)) ∧
    (∀ (st : MongoSt) (netUp insertOk : Bool), st.connected = true →
      send_event_to_mongo true netUp insertOk st = (st, insertOk, 0)) ∧
    (∀ (st : MongoSt) (netUp : Bool),
      get_mongo_connection false netUp st = (st, false, 0)) ∧
    (∀ st : MongoSt, st.connected = false →
      get_mongo_connection true false st = (mongoInit, false, 1)) ∧
    (∀ (st : MongoSt) (insertOk : Bool), st.connected = false →
      send_event_to_mongo true false insertOk st = (mongoInit, false, 1)) ∧
    (∀ st : MongoSt, st.connected = false →
      get_mongo_connection true true st = ({ connected := true }, true, 1)) := by
  refine ⟨?_, ?_, ?_, ?_, ?_, ?_⟩
  · intro st netUp h
    simp [get_mongo_connection, h]
  · intro st netUp insertOk h
    simp [send_event_to_mongo, get_mongo_connection, h]
  · intro st netUp
    simp [get_mongo_connection]
  · intro st h
    simp [get_mongo_connection, h, mongoInit]
  · intro st insertOk h
    simp [send_event_to_mongo, get_mongo_connection, h, mongoInit]
  · intro st h
    simp [get_mongo_connection, h]

/-- C7: when the remote send fails, `insert_event` still persists the full
row locally with `synced_to_mongo = false` and still returns the fresh id;
the flag is true exactly when the send succeeded; and `get_latest_hash`
lookups are unaffected by the send's outcome. -/
theorem C7_local_persistence (st : LogState) (d : EventData) :
    insert_event st d false =
      ({ events := st.events ++ [mkRec st.nextId d false],
         nextId := st.nextId + 1 }, st.nextId) ∧
    (mkRec st.nextId d false).synced_to_mongo = false ∧
    (mkRec st.nextId d false).event_type = d.event_type ∧
    (mkRec st.nextId d false).file_path = d.file_path ∧
    (mkRec st.nextId d false).hash_before = d.hash_before ∧
    (mkRec st.nextId d false).hash_after = d.hash_after ∧
    (∀ b : Bool, (insert_event st d b).2 = st.nextId) ∧
    (∀ b : Bool, (insert_event st d b).1.events =
      st.events ++ [mkRec st.nextId d b]) ∧
    (∀ b : Bool, (mkRec st.nextId d b).synced_to_mongo = b) ∧
    (∀ q : Str, get_latest_hash (insert_event st d false).1.events q =
      get_latest_hash (insert_event st d true).1.events q) := by
  refine ⟨insert_event_eq st d false, rfl, rfl, rfl, rfl, rfl,
    fun b => by rw [insert_event_eq], fun b => by rw [insert_event_eq],
    fun b => rfl, fun q => ?_⟩
  rw [insert_event_eq, insert_event_eq]
  exact get_latest_hash_synced_irrel st.events q st.nextId d false true

/-- C8: a notification of any kind whose target is a directory, or whose
path meets any of the spec's filter conditions (trailing `~`, leading dot,
swap suffix, compiled-artifact suffix, a `__pycache__` component), produces
no event and performs no hashing or log access — including each side of a
move, which degrades to the other side's classification alone. -/
theorem C8_filter_rejections (fs : FS) (ctx : Ctx) (ts : Nat) (sendOk : Bool)
    (ty p src dest : Str) (st : LogState) (h : specFilterCond p) :
    (∀ q : Str, processEvent fs ctx ts sendOk ty q true st = (st, [])) ∧
    processEvent fs ctx ts sendOk ty p false st = (st, []) ∧
    onMoved fs ctx ts sendOk src dest true st = (st, []) ∧
    onMoved fs ctx ts sendOk p dest false st =
      processEvent fs ctx ts sendOk sCreated dest false st ∧
    onMoved fs ctx ts sendOk src p false st =
      processEvent fs ctx ts sendOk sDeleted src false st := by
  have htmp := is_temp_of_spec p h
  refine ⟨fun q => processEvent_dir fs ctx ts sendOk ty q st,
    processEvent_temp fs ctx ts sendOk ty p st htmp, by simp [onMoved],
    ?_, ?_⟩
  · by_cases hd : is_temp_file dest = true
    · rw [processEvent_temp fs ctx ts sendOk sCreated dest st hd]
      simp [onMoved, htmp, hd]
    · rw [Bool.not_eq_true] at hd
      simp [onMoved, htmp, hd]
  · by_cases hsrc : is_temp_file src = true
    · rw [processEvent_temp fs ctx ts sendOk sDeleted src st hsrc]
      simp [onMoved, htmp, hsrc]
    · rw [Bool.not_eq_true] at hsrc
      simp [onMoved, htmp, hsrc]

/-- Witness for C8 at the filtered path `draft.txt~`. -/
theorem C8_filter_rejections_wit :
    (∀ q : Str, processEvent fsH1 ctxW 7 true sModified q true
      LogState.empty = (LogState.empty, [])) ∧
    processEvent fsH1 ctxW 7 true sModified pTmp false LogState.empty =
      (LogState.empty, []) ∧
    onMoved fsH1 ctxW 7 true pA pB true LogState.empty =
      (LogState.empty, []) ∧
    onMoved fsH1 ctxW 7 true pTmp pB false LogState.empty =
      processEvent fsH1 ctxW 7 true sCreated pB false LogState.empty ∧
    onMoved fsH1 ctxW 7 true pA pTmp false LogState.empty =
      processEvent fsH1 ctxW 7 true sDeleted pA false LogState.empty :=
  C8_filter_rejections fsH1 ctxW 7 true sModified pTmp pA pB LogState.empty
    (by unfold specFilterCond; decide)

/-- C9: the state fingerprint is a pure, deterministic function of its
logical inputs — recomputing `hash_state` on identical inputs yields the
identical result; on success the `state_hash` is the digest of
`serializeState`, whose object members (and the metadata members inside)
are emitted in strictly sorted key order with fixed separators, so the
serialization is canonical. -/
theorem C9_state_hash_deterministic :
    (∀ (digest : Str → Hash) (p : Str) (pe rf : Bool) (m : Option Metadata)
        (c : Option Hash),
      hash_state digest p pe rf m c = hash_state digest p pe rf m c) ∧
    (∀ (digest : Str → Hash) (p : Str) (m : Option Metadata) (ch : Hash),
      hash_state digest p true true m (some ch) =
        some { path := p, content_hash := ch, metadata := m,
               state_hash := digest (serializeState p ch m) }) ∧
    (∀ (p : Str) (ch : Hash) (m : Option Metadata),
      (stateFields p ch m).map Prod.fst = [kContentHash, kMetadata, kPath]) ∧
    (strLt kContentHash kMetadata = true ∧ strLt kMetadata kPath = true) ∧
    (∀ m : Metadata,
      (metaFields m).map Prod.fst = [kCtime, kMtime, kReadonly, kSize]) ∧
    (strLt kCtime kMtime = true ∧ strLt kMtime kReadonly = true ∧
      strLt kReadonly kSize = true) := by
  refine ⟨fun _ _ _ _ _ _ => rfl, fun d p m ch => ?_, fun _ _ _ => rfl,
    by decide, fun _ => rfl, by decide⟩
  simp [hash_state]

/-- C10: a modify notification on an unfiltered regular file for a path
with no prior logged digest (`get_latest_hash` returns null) is never
suppressed when fingerprinting succeeds: it appends a MODIFIED record — not
a CREATED one — with `hash_before` null and `hash_after` the fresh digest. -/
theorem C10_first_modify (fs : FS) (ctx : Ctx) (ts : Nat) (sendOk : Bool)
    (p : Str) (st : LogState) (h : Hash)
    (htmp : is_temp_file p = false) (hfile : fs.isFile p = true)
    (hprior : get_latest_hash st.events p = none)
    (hcmp : fs.compute p = some h) :
    (processEvent fs ctx ts sendOk sModified p false st).1.events =
      st.events ++
        [mkRec st.nextId (mkData sModified p ts ctx none (some h)) sendOk] ∧
    (mkRec st.nextId (mkData sModified p ts ctx none (some h))
      sendOk).event_type = sModified ∧
    (mkRec st.nextId (mkData sModified p ts ctx none (some h))
      sendOk).event_type ≠ sCreated ∧
    (mkRec st.nextId (mkData sModified p ts ctx none (some h))
      sendOk).hash_before = none ∧
    (mkRec st.nextId (mkData sModified p ts ctx none (some h))
      sendOk).hash_after = some h := by
  have he := processEvent_modified_eq fs ctx ts sendOk p st htmp hfile
  rw [hcmp, hprior] at he
  refine ⟨?_, rfl, tyNe_mc, rfl, rfl⟩
  rw [he, if_neg (by simp), insert_event_eq]

/-- Witness for C10 at a concrete first-modify notification. -/
theorem C10_first_modify_wit :
    (processEvent fsH2 ctxW 3 false sModified pB false
        LogState.empty).1.events =
      LogState.empty.events ++
        [mkRec LogState.empty.nextId
          (mkData sModified pB 3 ctxW none (some h2)) false] ∧
    (mkRec LogState.empty.nextId
      (mkData sModified pB 3 ctxW none (some h2)) false).event_type =
      sModified ∧
    (mkRec LogState.empty.nextId
      (mkData sModified pB 3 ctxW none (some h2)) false).event_type ≠
      sCreated ∧
    (mkRec LogState.empty.nextId
      (mkData sModified pB 3 ctxW none (some h2)) false).hash_before =
      none ∧
    (mkRec LogState.empty.nextId
      (mkData sModified pB 3 ctxW none (some h2)) false).hash_after =
      some h2 :=
  C10_first_modify fsH2 ctxW 3 false pB LogState.empty h2 (by decide) rfl
    rfl rfl

end FIM
